import Mathlib

/-!
# conn_pool: a shallow embedding of `ConnectionPool` and `Connection`

The pool of `src/ConnectionPool.cpp` is embedded as a record of the members the
member functions read and write; every member function becomes a function on
that record.  Blocking, dialling and the epoll wake-ups are inputs of the
functions: a dial is an oracle value (`DialOutcome`), a `getConnection` that
would sit in `pthread_cond_wait` returns `GetResult.waiting`, and the body of
the watcher loop is a function of the event it was woken with.  Each function
is taken as one atomic step (`getConnection`, `pushConnection` and the
re-admission of `reconnect` hold the mutex; the watcher body does not, and
interleavings inside it are not represented); the kernel-side epoll interest
list, the file descriptors and the locks themselves are not part of the record.
-/

namespace ConnPool

/-- Pointer `Connection*`: the identity of a `Connection` object.  The value is the
ordinal of the object among those `newConnection` has allocated, so that two
objects alive at the same time never share it. -/
abbrev Conn := Nat

/-- The enum `ConnState` of `Connection.h`. -/
inductive ConnState
  | INVALID
  | READY
  | BUSY
deriving DecidableEq, Repr

/-- Constant `CONN_POOL_INIT_SIZE` of `ConnectionPool.h`. -/
def CONN_POOL_INIT_SIZE : Int := 10

/-- Constant `CONN_POOL_MAX_SIZE` of `ConnectionPool.h`. -/
def CONN_POOL_MAX_SIZE : Int := 20

/-- Constant `RECONNECT_COUNT` of `ConnectionPool.h`. -/
def RECONNECT_COUNT : Nat := 3

/-- Constant `RECONNECT_INTERVAL` of `ConnectionPool.h`; its comment gives the unit as seconds. -/
def RECONNECT_INTERVAL : Nat := 3

/-- The largest value of a C++ `int` (the type of `size` and `max_size`). -/
def INT_MAX : Int := 2147483647

/-- Conversion of an `int` to `size_t` (64 bit), as the comparison
`pool.size() == max_size` performs it on its right operand. -/
def toSizeT (x : Int) : Int := x % 18446744073709551616

/-- The members of `class ConnectionPool` that the member functions use, with
the `state` member of every `Connection` (`state c`) and the number of
`Connection` objects allocated so far (`created`). -/
structure ConnectionPool where
  size : Int
  max_size : Int
  pool : List Conn
  ready_pool : List Conn
  running : Bool
  created : Nat
  state : Conn → ConnState

/-- Assignment `conn->state = v`. -/
def setState (st : Conn → ConnState) (c : Conn) (v : ConnState) : Conn → ConnState :=
  fun x => if x = c then v else st x

/-- The constructor `ConnectionPool(host, port, size, max_size)`: it stores the
configuration, sets `running` and leaves both containers empty. -/
def ConnectionPool.new (size max_size : Int) : ConnectionPool :=
  { size := size, max_size := max_size, pool := [], ready_pool := [],
    running := true, created := 0, state := fun _ => ConnState.INVALID }

/-- How one call of `newConnection` ends: one constructor for each of its four
`return NULL` paths and one for the path that reaches `return conn`. -/
inductive DialOutcome
  | socketFailed
  | hostInvalid
  | connectFailed
  | allocFailed
  | connected
deriving DecidableEq, Repr

/-- Member `ConnectionPool::newConnection`: on each failure path `NULL` and no change;
otherwise a newly allocated `Connection`, which `Connection::init` leaves in
state `READY`. -/
def ConnectionPool.newConnection (s : ConnectionPool) : DialOutcome → ConnectionPool × Option Conn
  | DialOutcome.connected =>
      ({ s with created := s.created + 1, state := setState s.state s.created ConnState.READY },
        some s.created)
  | _ => (s, none)

/-- What a caller of `getConnection` observes: a connection, `NULL`, or no
return yet because the thread is inside `pthread_cond_wait`. -/
inductive GetResult
  | conn (c : Conn)
  | null
  | waiting
deriving DecidableEq, Repr

/-- The loop condition of `getConnection`:
`ready_pool.empty() && pool.size() == max_size`. -/
def ConnectionPool.waitCondition (s : ConnectionPool) : Bool :=
  s.ready_pool.isEmpty && decide ((s.pool.length : Int) = toSizeT s.max_size)

/-- Member `ConnectionPool::getConnection`, one pass under the mutex: wait while the
loop condition holds; with an empty ready list dial and, on success, append to
`pool`; otherwise take `ready_pool.front()` and `pop_front()`. -/
def ConnectionPool.getConnection (s : ConnectionPool) (d : DialOutcome) :
    ConnectionPool × GetResult :=
  if s.waitCondition then (s, GetResult.waiting)
  else
    match s.ready_pool with
    | [] =>
        match s.newConnection d with
        | (s1, none) => (s1, GetResult.null)
        | (s1, some c) => ({ s1 with pool := s1.pool ++ [c] }, GetResult.conn c)
    | c :: rest => ({ s with ready_pool := rest }, GetResult.conn c)

/-- Member `ConnectionPool::pushConnection`: `ready_pool.push_back(conn)` (and a
broadcast on the condition variable); the function is `void` and has no other
statement. -/
def ConnectionPool.pushConnection (s : ConnectionPool) (c : Conn) : ConnectionPool :=
  { s with ready_pool := s.ready_pool ++ [c] }

/-- Member `Connection::close`: it calls `conn_pool.pushConnection(this)`. -/
def Connection.close (s : ConnectionPool) (c : Conn) : ConnectionPool :=
  s.pushConnection c

/-- Result of `init`: the pool as the call leaves it, and whether the call
left by `throw std::exception("init connection pool failed!")`. -/
structure InitRun where
  pool : ConnectionPool
  threw : Bool

/-- The `for` loop of `init` with `n` iterations to go, the next one being
iteration `i`; `dial i` is the outcome of the `newConnection` of iteration `i`. -/
def initLoop (dial : Nat → DialOutcome) : Nat → Nat → ConnectionPool → InitRun
  | 0, _, s => { pool := s, threw := false }
  | n + 1, i, s =>
      match s.newConnection (dial i) with
      | (s1, none) => { pool := s1, threw := true }
      | (s1, some c) =>
          initLoop dial n (i + 1)
            { s1 with pool := s1.pool ++ [c], ready_pool := s1.ready_pool ++ [c] }

/-- Member `ConnectionPool::init`: `size` iterations of the loop (none when
`size <= 0`); what follows the loop (`epoll_create`, the watcher thread)
touches no member modelled here. -/
def ConnectionPool.init (s : ConnectionPool) (dial : Nat → DialOutcome) : InitRun :=
  initLoop dial s.size.toNat 0 s

/-- A pool object within or after its lifetime.  `destroyed last` is an object
whose destructor has run, `last` being the member values the destructor body
wrote before the lifetime ended; no member function can be called on it. -/
inductive PoolObject
  | alive (s : ConnectionPool)
  | destroyed (last : ConnectionPool)

/-- A call of `getConnection` on a pool object: on a live pool it is
`ConnectionPool.getConnection`; on a destroyed one it locks a destroyed mutex
and uses destroyed containers, which is undefined behaviour (`none`). -/
def PoolObject.getConnection : PoolObject → DialOutcome → Option (ConnectionPool × GetResult)
  | PoolObject.alive s, d => some (s.getConnection d)
  | PoolObject.destroyed _, _ => none

/-- Statement `c.erase(std::find(c.begin(), c.end(), conn))`: the first occurrence is
removed; when there is none, `erase(end())` is undefined behaviour (`none`). -/
def eraseFound (l : List Conn) (c : Conn) : Option (List Conn) :=
  if c ∈ l then some (l.erase c) else none

/-- One entry of the `events` array filled by `epoll_wait`, with what
`ioctl(FIONREAD)` reports for its socket. -/
structure EpollEvent where
  conn : Conn
  epollin : Bool
  length : Int

/-- Body of the inner `for` loop of `watch` for one event: on `EPOLLIN` with
zero bytes the connection is set `INVALID` and erased from `pool` and from
`ready_pool` (a reconnect task is then handed to the thread pool). -/
def ConnectionPool.watchEvent (s : ConnectionPool) (e : EpollEvent) : Option ConnectionPool :=
  if e.epollin && decide (e.length = 0) then
    match eraseFound s.pool e.conn, eraseFound s.ready_pool e.conn with
    | some p, some r =>
        some { s with state := setState s.state e.conn ConnState.INVALID,
                      pool := p, ready_pool := r }
    | _, _ => none
  else some s

/-- The inner `for` loop of `watch` over the events of one wake-up. -/
def ConnectionPool.watchEvents (s : ConnectionPool) : List EpollEvent → Option ConnectionPool
  | [] => some s
  | e :: es => (s.watchEvent e).bind (fun s1 => s1.watchEvents es)

/-- Member `ConnectionPool::watch` over a finite run of wake-ups of `epoll_wait`
(`none` for a wake-up with `nfds == -1`): the loop goes on while `running`. -/
def ConnectionPool.watch (s : ConnectionPool) : List (Option (List EpollEvent)) → Option ConnectionPool
  | [] => some s
  | w :: ws =>
      if s.running then
        match w with
        | none => s.watch ws
        | some es => (s.watchEvents es).bind (fun s1 => s1.watch ws)
      else some s

/-- Result of one `reconnect` task: the pool afterwards, the number of
`connect` calls made, and the arguments of the `usleep` calls in order. -/
structure ReconnectRun where
  pool : ConnectionPool
  attempts : Nat
  sleeps : List Nat

/-- The `for` loop of `reconnect` with `n` iterations to go, the next being
iteration `i`; `connectOk i` tells whether the `connect` of iteration `i`
succeeds.  A failed attempt calls `usleep(RECONNECT_INTERVAL * 1000)`; a
successful one sets `READY`, appends to `pool` and `ready_pool`, and returns. -/
def reconnectLoop (c : Conn) (connectOk : Nat → Bool) :
    Nat → Nat → ConnectionPool → List Nat → ReconnectRun
  | 0, i, s, sl => { pool := s, attempts := i, sleeps := sl }
  | n + 1, i, s, sl =>
      if connectOk i then
        { pool := { s with state := setState s.state c ConnState.READY,
                           pool := s.pool ++ [c], ready_pool := s.ready_pool ++ [c] },
          attempts := i + 1, sleeps := sl }
      else reconnectLoop c connectOk n (i + 1) s (sl ++ [RECONNECT_INTERVAL * 1000])

/-- Member `ConnectionPool::reconnect(conn)`. -/
def ConnectionPool.reconnect (s : ConnectionPool) (c : Conn) (connectOk : Nat → Bool) :
    ReconnectRun :=
  reconnectLoop c connectOk RECONNECT_COUNT 0 s []

/-! ## Sequences of calls -/

/-- A call made by a user of the pool. -/
inductive Call
  | acquire (d : DialOutcome)
  | release (c : Conn)
deriving DecidableEq, Repr

/-- One call, with the list `held` of connections checked out (returned by an
acquire and not released since). -/
def callStep (sh : ConnectionPool × List Conn) : Call → ConnectionPool × List Conn
  | Call.acquire d =>
      match sh.1.getConnection d with
      | (s1, GetResult.conn c) => (s1, c :: sh.2)
      | (s1, _) => (s1, sh.2)
  | Call.release c => (sh.1.pushConnection c, sh.2.erase c)

/-- A sequence of calls, left to right. -/
def runCalls (sh : ConnectionPool × List Conn) (cs : List Call) : ConnectionPool × List Conn :=
  cs.foldl callStep sh

/-- Every release of the sequence hands back a connection that is checked out
at that point. -/
def releasesHeld (sh : ConnectionPool × List Conn) : List Call → Bool
  | [] => true
  | Call.release c :: cs => decide (c ∈ sh.2) && releasesHeld (callStep sh (Call.release c)) cs
  | Call.acquire d :: cs => releasesHeld (callStep sh (Call.acquire d)) cs

/-- Successive `getConnection` calls, one per dial outcome, with their results. -/
def acquireAll (s : ConnectionPool) : List DialOutcome → ConnectionPool × List GetResult
  | [] => (s, [])
  | d :: ds =>
      ((acquireAll (s.getConnection d).1 ds).1,
        (s.getConnection d).2 :: (acquireAll (s.getConnection d).1 ds).2)

/-- Successive `pushConnection` calls. -/
def releaseAll (s : ConnectionPool) (cs : List Conn) : ConnectionPool :=
  cs.foldl ConnectionPool.pushConnection s

/-- A step of the pool as a whole: a call of a user, the watcher handling a
zero-byte readable event, or a reconnect task running to its end. -/
inductive Op
  | acquire (d : DialOutcome)
  | release (c : Conn)
  | peerClose (c : Conn)
  | reconnect (c : Conn) (connectOk : Nat → Bool)

/-- One step; the second component collects the connections handed out. -/
def opStep (s : ConnectionPool) (out : List Conn) : Op → Option (ConnectionPool × List Conn)
  | Op.acquire d =>
      match s.getConnection d with
      | (s1, GetResult.conn c) => some (s1, out ++ [c])
      | (s1, _) => some (s1, out)
  | Op.release c => some (s.pushConnection c, out)
  | Op.peerClose c =>
      (s.watchEvent { conn := c, epollin := true, length := 0 }).map (fun s1 => (s1, out))
  | Op.reconnect c ok => some ((s.reconnect c ok).pool, out)

/-- A sequence of steps, left to right; `none` once a step is undefined. -/
def runOps (s : ConnectionPool) (out : List Conn) : List Op → Option (ConnectionPool × List Conn)
  | [] => some (s, out)
  | o :: os => (opStep s out o).bind (fun p => runOps p.1 p.2 os)

/-- Bookkeeping invariant of a pool `s` with the checked-out list `held`: the
ready list and the checked-out list have no repetition, share no connection,
and hold only connections that have been allocated. -/
structure HeldInv (s : ConnectionPool) (held : List Conn) : Prop where
  ready_nodup : s.ready_pool.Nodup
  held_nodup : held.Nodup
  apart : ∀ x, x ∈ s.ready_pool → x ∉ held
  ready_lt : ∀ x, x ∈ s.ready_pool → x < s.created
  held_lt : ∀ x, x ∈ held → x < s.created

/-- How a call of a member function returning `void` ends for its caller: the
only way such a function reports an error is an exception. -/
inductive Completion
  | returned
  | threw
deriving DecidableEq, Repr

/-- A call of `pushConnection` as its caller sees it: the pool afterwards and
how the call ended.  The body holds no `throw` and no test of its argument, so
every call returns. -/
def ConnectionPool.pushConnectionCall (s : ConnectionPool) (c : Conn) :
    ConnectionPool × Completion :=
  (s.pushConnection c, Completion.returned)

/-- Whether a step names connection `c` as the one released, closed by the
peer, or reconnected. -/
def Op.touches (c : Conn) : Op → Bool
  | Op.acquire _ => false
  | Op.release x => decide (x = c)
  | Op.peerClose x => decide (x = c)
  | Op.reconnect x _ => decide (x = c)

/-! # Theorems -/

/-! ## getConnection, case by case -/

theorem getConnection_cons (s : ConnectionPool) (d : DialOutcome) (c : Conn) (rest : List Conn)
    (h : s.ready_pool = c :: rest) :
    s.getConnection d = ({ s with ready_pool := rest }, GetResult.conn c) := by
  simp [ConnectionPool.getConnection, ConnectionPool.waitCondition, h]

theorem getConnection_wait (s : ConnectionPool) (d : DialOutcome)
    (h : s.ready_pool = []) (hfull : (s.pool.length : Int) = toSizeT s.max_size) :
    s.getConnection d = (s, GetResult.waiting) := by
  simp [ConnectionPool.getConnection, ConnectionPool.waitCondition, h, hfull]

theorem getConnection_dial (s : ConnectionPool)
    (h : s.ready_pool = []) (hroom : (s.pool.length : Int) ≠ toSizeT s.max_size) :
    s.getConnection DialOutcome.connected =
      ({ s with created := s.created + 1,
                state := setState s.state s.created ConnState.READY,
                pool := s.pool ++ [s.created] }, GetResult.conn s.created) := by
  simp [ConnectionPool.getConnection, ConnectionPool.waitCondition, h, hroom,
    ConnectionPool.newConnection]

theorem getConnection_null (s : ConnectionPool) (d : DialOutcome)
    (h : s.ready_pool = []) (hroom : (s.pool.length : Int) ≠ toSizeT s.max_size)
    (hd : d ≠ DialOutcome.connected) :
    s.getConnection d = (s, GetResult.null) := by
  cases d <;>
    simp_all [ConnectionPool.getConnection, ConnectionPool.waitCondition,
      ConnectionPool.newConnection]

theorem toSizeT_of_range (x : Int) (h0 : 0 ≤ x) (h1 : x ≤ INT_MAX) : toSizeT x = x := by
  unfold toSizeT
  unfold INT_MAX at h1
  omega

/-- The configuration members are written by the constructor only. -/
theorem getConnection_config (s : ConnectionPool) (d : DialOutcome) :
    (s.getConnection d).1.max_size = s.max_size ∧ (s.getConnection d).1.size = s.size ∧
      (s.getConnection d).1.running = s.running := by
  rcases hr : s.ready_pool with _ | ⟨c, rest⟩
  · by_cases hfull : (s.pool.length : Int) = toSizeT s.max_size
    · rw [getConnection_wait s d hr hfull]; simp
    · by_cases hd : d = DialOutcome.connected
      · subst hd; rw [getConnection_dial s hr hfull]; simp
      · rw [getConnection_null s d hr hfull hd]; simp
  · rw [getConnection_cons s d c rest hr]; simp

/-- Bound kept by `getConnection`: it appends to `pool` only below `max_size`. -/
theorem getConnection_bound (s : ConnectionPool) (d : DialOutcome)
    (hmax : s.max_size ≤ INT_MAX) (hb : (s.pool.length : Int) ≤ s.max_size) :
    ((s.getConnection d).1.pool.length : Int) ≤ s.max_size := by
  rcases hr : s.ready_pool with _ | ⟨c, rest⟩
  · by_cases hfull : (s.pool.length : Int) = toSizeT s.max_size
    · rw [getConnection_wait s d hr hfull]; exact hb
    · by_cases hd : d = DialOutcome.connected
      · subst hd
        rw [getConnection_dial s hr hfull]
        have h0 : (0 : Int) ≤ s.max_size := le_trans (Int.ofNat_nonneg _) hb
        rw [toSizeT_of_range _ h0 hmax] at hfull
        simp only [List.length_append, List.length_singleton]
        push_cast
        omega
      · rw [getConnection_null s d hr hfull hd]; exact hb
  · rw [getConnection_cons s d c rest hr]; exact hb

/-! ## init -/

theorem newConnection_connected (s : ConnectionPool) :
    s.newConnection DialOutcome.connected =
      ({ s with created := s.created + 1,
                state := setState s.state s.created ConnState.READY }, some s.created) := rfl

theorem newConnection_failed (s : ConnectionPool) (d : DialOutcome)
    (hd : d ≠ DialOutcome.connected) : s.newConnection d = (s, none) := by
  cases d <;> first | rfl | exact absurd rfl hd

/-- The loop of `init` when its first `k` dials succeed and, if `k < n`, dial
`k` fails: it stops there, having appended the `k` new connections. -/
theorem initLoop_upto (dial : Nat → DialOutcome) :
    ∀ (n i : Nat) (s : ConnectionPool) (k : Nat), k ≤ n →
      (∀ j, j < k → dial (i + j) = DialOutcome.connected) →
      (k < n → dial (i + k) ≠ DialOutcome.connected) →
      (initLoop dial n i s).threw = decide (k < n) ∧
      (initLoop dial n i s).pool.pool = s.pool ++ List.range' s.created k ∧
      (initLoop dial n i s).pool.ready_pool = s.ready_pool ++ List.range' s.created k ∧
      (initLoop dial n i s).pool.created = s.created + k ∧
      (initLoop dial n i s).pool.max_size = s.max_size ∧
      (initLoop dial n i s).pool.size = s.size := by
  intro n
  induction n with
  | zero =>
      intro i s k hk _ _
      have hk0 : k = 0 := by omega
      subst hk0
      simp [initLoop]
  | succ n ih =>
      intro i s k hk hok hfail
      cases k with
      | zero =>
          have hd : dial i ≠ DialOutcome.connected := by simpa using hfail (by omega)
          simp [initLoop, newConnection_failed s _ hd]
      | succ k =>
          have hd : dial i = DialOutcome.connected := by simpa using hok 0 (by omega)
          have h := ih (i + 1)
            { s with created := s.created + 1,
                     state := setState s.state s.created ConnState.READY,
                     pool := s.pool ++ [s.created],
                     ready_pool := s.ready_pool ++ [s.created] } k (by omega)
            (fun j hj => by
              have := hok (j + 1) (by omega)
              rwa [show i + (j + 1) = i + 1 + j by omega] at this)
            (fun hlt => by
              have := hfail (by omega)
              rwa [show i + (k + 1) = i + 1 + k by omega] at this)
          simp only [initLoop, hd, newConnection_connected]
          obtain ⟨h1, h2, h3, h4, h5, h6⟩ := h
          refine ⟨?_, ?_, ?_, ?_, h5, h6⟩
          · rw [h1]; simp
          · rw [h2]; simp [List.range'_succ]
          · rw [h3]; simp [List.range'_succ]
          · rw [h4]; simp; omega

/-- The loop of `init` throws exactly when one of its dials fails. -/
theorem initLoop_threw_iff (dial : Nat → DialOutcome) :
    ∀ (n i : Nat) (s : ConnectionPool),
      (initLoop dial n i s).threw = false ↔ ∀ j, j < n → dial (i + j) = DialOutcome.connected := by
  intro n
  induction n with
  | zero => intro i s; simp [initLoop]
  | succ n ih =>
      intro i s
      by_cases hd : dial i = DialOutcome.connected
      · simp only [initLoop, hd, newConnection_connected]
        rw [ih]
        constructor
        · intro h j hj
          cases j with
          | zero => simpa using hd
          | succ j =>
              have := h j (by omega)
              rwa [show i + 1 + j = i + (j + 1) by omega] at this
        · intro h j hj
          have := h (j + 1) (by omega)
          rwa [show i + (j + 1) = i + 1 + j by omega] at this
      · simp only [initLoop, newConnection_failed s _ hd]
        constructor
        · intro h; simp at h
        · intro h; exact absurd (by simpa using h 0 (by omega)) hd

/-- A pool whose `init` returned normally: both containers hold the `size`
connections dialled, in dial order. -/
theorem init_ok_fields (size max_size : Int) (dial : Nat → DialOutcome)
    (h : ((ConnectionPool.new size max_size).init dial).threw = false) :
    ((ConnectionPool.new size max_size).init dial).pool.pool = List.range size.toNat ∧
    ((ConnectionPool.new size max_size).init dial).pool.ready_pool = List.range size.toNat ∧
    ((ConnectionPool.new size max_size).init dial).pool.created = size.toNat ∧
    ((ConnectionPool.new size max_size).init dial).pool.max_size = max_size := by
  have hall := (initLoop_threw_iff dial size.toNat 0 (ConnectionPool.new size max_size)).mp h
  have hp := initLoop_upto dial size.toNat 0 (ConnectionPool.new size max_size) size.toNat
    (le_refl _) hall (fun hlt => absurd hlt (lt_irrefl _))
  obtain ⟨_, h2, h3, h4, h5, _⟩ := hp
  simp only [ConnectionPool.init, ConnectionPool.new] at *
  refine ⟨?_, ?_, ?_, h5⟩
  · rw [h2]; simp [List.range_eq_range']
  · rw [h3]; simp [List.range_eq_range']
  · rw [h4]; simp

/-! ## Sequences of acquire and release -/

theorem callStep_acquire_fst (sh : ConnectionPool × List Conn) (d : DialOutcome) :
    (callStep sh (Call.acquire d)).1 = (sh.1.getConnection d).1 := by
  simp only [callStep]
  split <;> simp_all

theorem callStep_release (sh : ConnectionPool × List Conn) (c : Conn) :
    callStep sh (Call.release c) = (sh.1.pushConnection c, sh.2.erase c) := rfl

/-- One call keeps `max_size` and the bound `|pool| ≤ max_size`. -/
theorem callStep_bound (sh : ConnectionPool × List Conn) (op : Call)
    (hmax : sh.1.max_size ≤ INT_MAX) (hb : (sh.1.pool.length : Int) ≤ sh.1.max_size) :
    (callStep sh op).1.max_size = sh.1.max_size ∧
      ((callStep sh op).1.pool.length : Int) ≤ sh.1.max_size := by
  cases op with
  | acquire d =>
      rw [callStep_acquire_fst]
      exact ⟨(getConnection_config sh.1 d).1, getConnection_bound sh.1 d hmax hb⟩
  | release c =>
      rw [callStep_release]
      exact ⟨rfl, hb⟩

theorem runCalls_bound (calls : List Call) :
    ∀ sh : ConnectionPool × List Conn, sh.1.max_size ≤ INT_MAX →
      (sh.1.pool.length : Int) ≤ sh.1.max_size →
      (runCalls sh calls).1.max_size = sh.1.max_size ∧
        ((runCalls sh calls).1.pool.length : Int) ≤ sh.1.max_size := by
  induction calls with
  | nil => intro sh _ hb; exact ⟨rfl, hb⟩
  | cons op rest ih =>
      intro sh hmax hb
      obtain ⟨h1, h2⟩ := callStep_bound sh op hmax hb
      have := ih (callStep sh op) (by rw [h1]; exact hmax) (by rw [h1]; exact h2)
      simp only [runCalls, List.foldl_cons] at this ⊢
      rw [h1] at this
      exact this

/-- C1: for a pool constructed with `0 < size ≤ max_size` (a C++ `int`) whose
`init` returned normally, after every step of every finite sequence of
`getConnection` (with any dial outcome) and `pushConnection` calls the number
of connections in `pool` is at most `max_size`.  The bound is shown after each
prefix `calls.take k` of the sequence; it needs no assumption on which
connections are released. -/
theorem pool_bounded_after_every_call (size max_size : Int) (dial : Nat → DialOutcome)
    (hpos : 0 < size) (hle : size ≤ max_size) (hint : max_size ≤ INT_MAX)
    (hinit : ((ConnectionPool.new size max_size).init dial).threw = false)
    (calls : List Call) (k : Nat) :
    ((runCalls (((ConnectionPool.new size max_size).init dial).pool, []) (calls.take k)).1.pool.length
      : Int) ≤ max_size := by
  obtain ⟨hp, _, _, hm⟩ := init_ok_fields size max_size dial hinit
  have h := runCalls_bound (calls.take k)
    (((ConnectionPool.new size max_size).init dial).pool, [])
    (by simp only [hm]; exact hint)
    (by simp only [hm, hp, List.length_range]; omega)
  simp only [hm] at h
  exact h.2

theorem pool_bounded_after_every_call_witness :
    ((runCalls (((ConnectionPool.new 2 3).init (fun _ => DialOutcome.connected)).pool, [])
        ([Call.acquire DialOutcome.connected, Call.acquire DialOutcome.connected,
          Call.acquire DialOutcome.connected, Call.release 1,
          Call.acquire DialOutcome.connectFailed].take 5)).1.pool.length : Int) ≤ 3 :=
  pool_bounded_after_every_call 2 3 (fun _ => DialOutcome.connected) (by decide) (by decide)
    (by decide) (by decide) _ 5

/-! ## No connection is handed out twice -/

/-- Result of `getConnection` is a connection not checked out, and the
bookkeeping invariant holds again with that connection checked out. -/
theorem getConnection_heldInv (s : ConnectionPool) (held : List Conn) (d : DialOutcome)
    (hinv : HeldInv s held) :
    (∀ c, (s.getConnection d).2 = GetResult.conn c →
        c ∉ held ∧ HeldInv (s.getConnection d).1 (c :: held)) ∧
    ((∀ c, (s.getConnection d).2 ≠ GetResult.conn c) → HeldInv (s.getConnection d).1 held) := by
  rcases hr : s.ready_pool with _ | ⟨c0, rest⟩
  · by_cases hfull : (s.pool.length : Int) = toSizeT s.max_size
    · rw [getConnection_wait s d hr hfull]
      exact ⟨fun c hc => by simp at hc, fun _ => hinv⟩
    · by_cases hd : d = DialOutcome.connected
      · subst hd
        rw [getConnection_dial s hr hfull]
        refine ⟨fun c hc => ?_, fun h => absurd rfl (h s.created)⟩
        have hc' : s.created = c := by simpa using hc
        subst hc'
        have hnot : s.created ∉ held := fun hmem => lt_irrefl _ (hinv.held_lt _ hmem)
        refine ⟨hnot, ?_⟩
        constructor
        · simp [hr]
        · exact List.nodup_cons.mpr ⟨hnot, hinv.held_nodup⟩
        · intro x hx; simp [hr] at hx
        · intro x hx; simp [hr] at hx
        · intro x hx
          rcases List.mem_cons.mp hx with h | h
          · subst h; simp
          · exact Nat.lt_succ_of_lt (hinv.held_lt x h)
      · rw [getConnection_null s d hr hfull hd]
        exact ⟨fun c hc => by simp at hc, fun _ => hinv⟩
  · rw [getConnection_cons s d c0 rest hr]
    have hnd : (c0 :: rest).Nodup := hr ▸ hinv.ready_nodup
    have hc0 : c0 ∈ s.ready_pool := by rw [hr]; simp
    have hrest : ∀ x, x ∈ rest → x ∈ s.ready_pool := fun x hx => by rw [hr]; simp [hx]
    refine ⟨fun c hc => ?_, fun h => absurd rfl (h c0)⟩
    have hc' : c0 = c := by simpa using hc
    subst hc'
    refine ⟨hinv.apart _ hc0, ?_⟩
    constructor
    · exact (List.nodup_cons.mp hnd).2
    · exact List.nodup_cons.mpr ⟨hinv.apart _ hc0, hinv.held_nodup⟩
    · intro x hx hmem
      rcases List.mem_cons.mp hmem with h | h
      · subst h; exact (List.nodup_cons.mp hnd).1 hx
      · exact hinv.apart x (hrest x hx) h
    · intro x hx; exact hinv.ready_lt x (hrest x hx)
    · intro x hx
      rcases List.mem_cons.mp hx with h | h
      · subst h; exact hinv.ready_lt _ hc0
      · exact hinv.held_lt x h

/-- Releasing a checked-out connection keeps the bookkeeping invariant. -/
theorem pushConnection_heldInv (s : ConnectionPool) (held : List Conn) (c : Conn)
    (hinv : HeldInv s held) (hc : c ∈ held) :
    HeldInv (s.pushConnection c) (held.erase c) := by
  have hcr : c ∉ s.ready_pool := fun h => hinv.apart c h hc
  constructor
  · show (s.ready_pool ++ [c]).Nodup
    rw [List.nodup_append]
    refine ⟨hinv.ready_nodup, List.nodup_singleton c, ?_⟩
    intro x hx hx'
    have : x = c := by simpa using hx'
    subst this
    exact hcr hx
  · exact hinv.held_nodup.erase c
  · intro x hx hmem
    have hx' : x ∈ s.ready_pool ++ [c] := hx
    rcases List.mem_append.mp hx' with h | h
    · exact hinv.apart x h (List.mem_of_mem_erase hmem)
    · have : x = c := by simpa using h
      subst this
      exact (List.Nodup.not_mem_erase hinv.held_nodup) hmem
  · intro x hx
    have hx' : x ∈ s.ready_pool ++ [c] := hx
    rcases List.mem_append.mp hx' with h | h
    · exact hinv.ready_lt x h
    · have : x = c := by simpa using h
      subst this
      exact hinv.held_lt _ hc
  · intro x hx
    exact hinv.held_lt x (List.mem_of_mem_erase hx)

theorem callStep_heldInv (sh : ConnectionPool × List Conn) (op : Call)
    (hinv : HeldInv sh.1 sh.2) (hop : releasesHeld sh [op] = true) :
    HeldInv (callStep sh op).1 (callStep sh op).2 := by
  cases op with
  | acquire d =>
      have h := getConnection_heldInv sh.1 sh.2 d hinv
      simp only [callStep]
      split
      · rename_i s1 c heq
        have h2 : (sh.1.getConnection d).2 = GetResult.conn c := by rw [heq]
        have h1 : (sh.1.getConnection d).1 = s1 := by rw [heq]
        have := (h.1 c h2).2
        rw [h1] at this
        exact this
      · rename_i s1 r hne heq
        have h1 : (sh.1.getConnection d).1 = s1 := by rw [heq]
        have := h.2 (fun c hc => hne c (by rw [heq] at hc; exact hc))
        rw [h1] at this
        exact this
  | release c =>
      have hc : c ∈ sh.2 := by
        simp [releasesHeld] at hop
        exact hop
      exact pushConnection_heldInv sh.1 sh.2 c hinv hc

theorem releasesHeld_cons (sh : ConnectionPool × List Conn) (op : Call) (rest : List Call)
    (h : releasesHeld sh (op :: rest) = true) :
    releasesHeld sh [op] = true ∧ releasesHeld (callStep sh op) rest = true := by
  cases op with
  | acquire d => simp [releasesHeld] at h ⊢; exact h
  | release c => simp [releasesHeld] at h ⊢; exact h

theorem runCalls_heldInv (calls : List Call) :
    ∀ sh : ConnectionPool × List Conn, HeldInv sh.1 sh.2 → releasesHeld sh calls = true →
      HeldInv (runCalls sh calls).1 (runCalls sh calls).2 := by
  induction calls with
  | nil => intro sh h _; exact h
  | cons op rest ih =>
      intro sh hinv hv
      obtain ⟨h1, h2⟩ := releasesHeld_cons sh op rest hv
      exact ih (callStep sh op) (callStep_heldInv sh op hinv h1) h2

theorem init_heldInv (size max_size : Int) (dial : Nat → DialOutcome)
    (hinit : ((ConnectionPool.new size max_size).init dial).threw = false) :
    HeldInv ((ConnectionPool.new size max_size).init dial).pool [] := by
  obtain ⟨_, hr, hc, _⟩ := init_ok_fields size max_size dial hinit
  constructor
  · rw [hr]; exact List.nodup_range _
  · exact List.nodup_nil
  · intro x _ h; simp at h
  · intro x hx; rw [hr] at hx; rw [hc]; exact List.mem_range.mp hx
  · intro x h; simp at h

/-- C2: on a pool whose `init` returned normally, after every sequence of
`getConnection` and `pushConnection` calls in which each release hands back a
connection that an earlier acquire returned and that has not been released
since, the ready list holds no connection twice and no checked-out connection,
and the next `getConnection`, whatever its dial outcome, never returns a
connection that is checked out. -/
theorem acquire_never_returns_held (size max_size : Int) (dial : Nat → DialOutcome)
    (hinit : ((ConnectionPool.new size max_size).init dial).threw = false)
    (calls : List Call)
    (hrel : releasesHeld (((ConnectionPool.new size max_size).init dial).pool, []) calls = true) :
    (runCalls (((ConnectionPool.new size max_size).init dial).pool, []) calls).1.ready_pool.Nodup ∧
    (∀ x, x ∈ (runCalls (((ConnectionPool.new size max_size).init dial).pool, []) calls).1.ready_pool →
      x ∉ (runCalls (((ConnectionPool.new size max_size).init dial).pool, []) calls).2) ∧
    (∀ d c,
      ((runCalls (((ConnectionPool.new size max_size).init dial).pool, []) calls).1.getConnection d).2
          = GetResult.conn c →
      c ∉ (runCalls (((ConnectionPool.new size max_size).init dial).pool, []) calls).2) := by
  have hinv := runCalls_heldInv calls (((ConnectionPool.new size max_size).init dial).pool, [])
    (init_heldInv size max_size dial hinit) hrel
  exact ⟨hinv.ready_nodup, hinv.apart,
    fun d c hc => ((getConnection_heldInv _ _ d hinv).1 c hc).1⟩

theorem acquire_never_returns_held_witness :
    (runCalls (((ConnectionPool.new 2 3).init (fun _ => DialOutcome.connected)).pool, [])
        [Call.acquire DialOutcome.connected, Call.acquire DialOutcome.connected,
          Call.acquire DialOutcome.connected, Call.release 1]).1.ready_pool.Nodup ∧
    (∀ x, x ∈ (runCalls (((ConnectionPool.new 2 3).init (fun _ => DialOutcome.connected)).pool, [])
        [Call.acquire DialOutcome.connected, Call.acquire DialOutcome.connected,
          Call.acquire DialOutcome.connected, Call.release 1]).1.ready_pool →
      x ∉ (runCalls (((ConnectionPool.new 2 3).init (fun _ => DialOutcome.connected)).pool, [])
        [Call.acquire DialOutcome.connected, Call.acquire DialOutcome.connected,
          Call.acquire DialOutcome.connected, Call.release 1]).2) ∧
    (∀ d c,
      ((runCalls (((ConnectionPool.new 2 3).init (fun _ => DialOutcome.connected)).pool, [])
        [Call.acquire DialOutcome.connected, Call.acquire DialOutcome.connected,
          Call.acquire DialOutcome.connected, Call.release 1]).1.getConnection d).2
          = GetResult.conn c →
      c ∉ (runCalls (((ConnectionPool.new 2 3).init (fun _ => DialOutcome.connected)).pool, [])
        [Call.acquire DialOutcome.connected, Call.acquire DialOutcome.connected,
          Call.acquire DialOutcome.connected, Call.release 1]).2) :=
  acquire_never_returns_held 2 3 (fun _ => DialOutcome.connected) (by decide) _ (by decide)

/-! ## FIFO order of the ready list -/

theorem releaseAll_eq (cs : List Conn) :
    ∀ s : ConnectionPool, releaseAll s cs = { s with ready_pool := s.ready_pool ++ cs } := by
  induction cs with
  | nil => intro s; simp [releaseAll]
  | cons c rest ih =>
      intro s
      have := ih (s.pushConnection c)
      simp only [releaseAll, List.foldl_cons] at this ⊢
      rw [this]
      simp [ConnectionPool.pushConnection]

/-- As many acquires as the ready list is long return its elements front to
back and change nothing but the ready list. -/
theorem acquireAll_ready (ds : List DialOutcome) :
    ∀ s : ConnectionPool, ds.length = s.ready_pool.length →
      acquireAll s ds = ({ s with ready_pool := [] }, s.ready_pool.map GetResult.conn) := by
  induction ds with
  | nil =>
      intro s h
      have hr : s.ready_pool = [] := List.length_eq_zero.mp h.symm
      obtain ⟨sz, mx, p, r, run, cr, st⟩ := s
      simp only at hr
      subst hr
      rfl
  | cons d rest ih =>
      intro s h
      rcases hr : s.ready_pool with _ | ⟨c, tl⟩
      · rw [hr] at h; simp at h
      · rw [hr] at h
        have hlen : rest.length = tl.length := by simpa using h
        simp only [acquireAll, getConnection_cons s d c tl hr]
        rw [ih { s with ready_pool := tl } hlen]
        simp

theorem acquireAll_append (a : List DialOutcome) :
    ∀ (s : ConnectionPool) (b : List DialOutcome),
      acquireAll s (a ++ b) =
        ((acquireAll (acquireAll s a).1 b).1, (acquireAll s a).2 ++ (acquireAll (acquireAll s a).1 b).2) := by
  induction a with
  | nil => intro s b; simp [acquireAll]
  | cons d rest ih =>
      intro s b
      have h := ih (s.getConnection d).1 b
      simp only [List.cons_append, acquireAll, List.append_eq]
      rw [h]

/-- C3: the ready list is FIFO.  (1) When `ready_pool` is `c :: rest`,
`getConnection` returns `c`, leaves `rest` as the ready list and does not
change `pool`.  (2) `pushConnection c` appends `c` at the back of the ready
list.  (3) Releasing `cs` in order into an empty ready list and then calling
`getConnection` as many times returns `cs` in the same order, and the ready
list is empty again with `pool` as before. -/
theorem ready_queue_fifo :
    (∀ (s : ConnectionPool) (d : DialOutcome) (c : Conn) (rest : List Conn),
      s.ready_pool = c :: rest →
        (s.getConnection d).2 = GetResult.conn c ∧
        (s.getConnection d).1.ready_pool = rest ∧
        (s.getConnection d).1.pool = s.pool) ∧
    (∀ (s : ConnectionPool) (c : Conn),
        (s.pushConnection c).ready_pool = s.ready_pool ++ [c] ∧
        (s.pushConnection c).pool = s.pool) ∧
    (∀ (s : ConnectionPool) (cs : List Conn) (ds : List DialOutcome),
      s.ready_pool = [] → ds.length = cs.length →
        (acquireAll (releaseAll s cs) ds).2 = cs.map GetResult.conn ∧
        (acquireAll (releaseAll s cs) ds).1.ready_pool = [] ∧
        (acquireAll (releaseAll s cs) ds).1.pool = s.pool) := by
  refine ⟨?_, ?_, ?_⟩
  · intro s d c rest h
    rw [getConnection_cons s d c rest h]
    exact ⟨rfl, rfl, rfl⟩
  · intro s c
    exact ⟨rfl, rfl⟩
  · intro s cs ds h hlen
    rw [releaseAll_eq, acquireAll_ready ds _ (by simpa [h] using hlen)]
    simp [h]

theorem ready_queue_fifo_witness :
    (acquireAll
        (releaseAll
          (acquireAll ((ConnectionPool.new 3 3).init (fun _ => DialOutcome.connected)).pool
            [DialOutcome.connected, DialOutcome.connected, DialOutcome.connected]).1 [2, 0, 1])
        [DialOutcome.connected, DialOutcome.connectFailed, DialOutcome.connected]).2
      = [GetResult.conn 2, GetResult.conn 0, GetResult.conn 1] :=
  (ready_queue_fifo.2.2
    (acquireAll ((ConnectionPool.new 3 3).init (fun _ => DialOutcome.connected)).pool
      [DialOutcome.connected, DialOutcome.connected, DialOutcome.connected]).1 [2, 0, 1]
    [DialOutcome.connected, DialOutcome.connectFailed, DialOutcome.connected]
    (by decide) rfl).1

/-! ## Exhaustion -/

/-- Acquires on a pool with an empty ready list and room for all of them: each
one that returns a connection has dialled it. -/
theorem acquireAll_dial (ds : List DialOutcome) :
    ∀ s : ConnectionPool, s.ready_pool = [] → s.max_size ≤ INT_MAX →
      (s.pool.length : Int) + (ds.length : Int) ≤ s.max_size →
      (∀ r, r ∈ (acquireAll s ds).2 → ∃ c, r = GetResult.conn c) →
      ds = List.replicate ds.length DialOutcome.connected ∧
      (acquireAll s ds).2 = (List.range' s.created ds.length).map GetResult.conn ∧
      (acquireAll s ds).1.pool = s.pool ++ List.range' s.created ds.length ∧
      (acquireAll s ds).1.ready_pool = [] ∧
      (acquireAll s ds).1.max_size = s.max_size := by
  induction ds with
  | nil => intro s hr _ _ _; simp [acquireAll, hr]
  | cons d rest ih =>
      intro s hr hmax hroom hsucc
      have hlen : ((d :: rest).length : Int) = (rest.length : Int) + 1 := by simp
      have h0 : (0 : Int) ≤ s.max_size := by
        have := Int.ofNat_nonneg s.pool.length
        have := Int.ofNat_nonneg rest.length
        omega
      have hne : (s.pool.length : Int) ≠ toSizeT s.max_size := by
        rw [toSizeT_of_range _ h0 hmax]
        have := Int.ofNat_nonneg rest.length
        omega
      have hd : d = DialOutcome.connected := by
        by_contra hd
        obtain ⟨c, hc⟩ := hsucc (s.getConnection d).2 (by simp [acquireAll])
        rw [getConnection_null s d hr hne hd] at hc
        simp at hc
      subst hd
      have hstep := getConnection_dial s hr hne
      have hih := ih (s.getConnection DialOutcome.connected).1
        (by rw [hstep]; exact hr)
        (by rw [hstep]; exact hmax)
        (by rw [hstep]; simp only [List.length_append, List.length_singleton]; push_cast; omega)
        (fun r hrm => hsucc r (by simp only [acquireAll]; exact List.mem_cons_of_mem _ hrm))
      obtain ⟨i1, i2, i3, i4, i5⟩ := hih
      simp only [acquireAll]
      refine ⟨?_, ?_, ?_, i4, ?_⟩
      · rw [List.length_cons, List.replicate_succ]
        exact congrArg _ i1
      · rw [i2, hstep]; simp [List.range'_succ]
      · rw [i3, hstep]; simp [List.range'_succ]
      · rw [i5, hstep]

/-- C4: a pool constructed with `0 < size ≤ max_size` (a C++ `int`) and
initialised, then `max_size` calls of `getConnection` that each return a
connection, with no release in between.  The first `size` calls return the
initial connections, which are distinct; each of the remaining
`max_size - size` calls dials, and the connection it returns is a new one,
appended to `pool`.  Afterwards the ready list is empty and `pool` holds
`max_size` connections, so the loop condition of the next `getConnection`
holds and that call waits whatever a dial would give; after one
`pushConnection` the condition is false and the next `getConnection` returns
the released connection. -/
theorem exhausted_after_max_acquires (size max_size : Int) (dial : Nat → DialOutcome)
    (hpos : 0 < size) (hle : size ≤ max_size) (hint : max_size ≤ INT_MAX)
    (hinit : ((ConnectionPool.new size max_size).init dial).threw = false)
    (ds : List DialOutcome) (hlen : (ds.length : Int) = max_size)
    (s0 s1 : ConnectionPool) (rs : List GetResult)
    (hs0 : s0 = ((ConnectionPool.new size max_size).init dial).pool)
    (hrun : acquireAll s0 ds = (s1, rs))
    (hsucc : ∀ r, r ∈ rs → ∃ c, r = GetResult.conn c) :
    s0.pool = List.range size.toNat ∧ s0.pool.Nodup ∧
    rs = (s0.pool ++ List.range' size.toNat (max_size.toNat - size.toNat)).map GetResult.conn ∧
    ds.drop size.toNat = List.replicate (max_size.toNat - size.toNat) DialOutcome.connected ∧
    s1.pool = s0.pool ++ List.range' size.toNat (max_size.toNat - size.toNat) ∧
    (s0.pool ++ List.range' size.toNat (max_size.toNat - size.toNat)).Nodup ∧
    s1.ready_pool = [] ∧ (s1.pool.length : Int) = max_size ∧
    s1.waitCondition = true ∧
    (∀ d, s1.getConnection d = (s1, GetResult.waiting)) ∧
    (∀ c, (s1.pushConnection c).waitCondition = false ∧
      ∀ d, ((s1.pushConnection c).getConnection d).2 = GetResult.conn c) := by
  obtain ⟨hp, hr, hc, hm⟩ := init_ok_fields size max_size dial hinit
  rw [← hs0] at hp hr hc hm
  have hN : ds.length = max_size.toNat := by omega
  have hmN : size.toNat ≤ max_size.toNat := by omega
  -- the two phases
  have hsplit : ds = ds.take size.toNat ++ ds.drop size.toNat := (List.take_append_drop _ _).symm
  have htake : (ds.take size.toNat).length = s0.ready_pool.length := by
    rw [hr, List.length_take, List.length_range]; omega
  have hdrop : (ds.drop size.toNat).length = max_size.toNat - size.toNat := by
    rw [List.length_drop]; omega
  obtain ⟨s', hs'⟩ : ∃ s' : ConnectionPool, s' = { s0 with ready_pool := [] } := ⟨_, rfl⟩
  have f1 : s'.ready_pool = [] := by rw [hs']
  have f2 : s'.pool = s0.pool := by rw [hs']
  have f3 : s'.created = size.toNat := by rw [hs']; exact hc
  have f4 : s'.max_size = max_size := by rw [hs']; exact hm
  have h1 : acquireAll s0 (ds.take size.toNat) = (s', s0.ready_pool.map GetResult.conn) := by
    rw [hs']; exact acquireAll_ready (ds.take size.toNat) s0 htake
  have happ := acquireAll_append (ds.take size.toNat) s0 (ds.drop size.toNat)
  rw [← hsplit, hrun, h1] at happ
  have hs1 : s1 = (acquireAll s' (ds.drop size.toNat)).1 := congrArg Prod.fst happ
  have hrs : rs = s0.ready_pool.map GetResult.conn ++ (acquireAll s' (ds.drop size.toNat)).2 :=
    congrArg Prod.snd happ
  have h2 := acquireAll_dial (ds.drop size.toNat) s' f1 (by rw [f4]; exact hint)
    (by rw [f4, f2, hp, List.length_range, hdrop]; omega)
    (fun r hrm => hsucc r (by rw [hrs]; exact List.mem_append_right _ hrm))
  obtain ⟨d1, d2, d3, d4, d5⟩ := h2
  rw [hdrop] at d1
  rw [hdrop, f3] at d2
  rw [hdrop, f3, f2] at d3
  rw [f4] at d5
  have hmx : s1.max_size = max_size := by rw [hs1, d5]
  have hall : s0.pool ++ List.range' size.toNat (max_size.toNat - size.toNat)
      = List.range max_size.toNat := by
    rw [hp, List.range_eq_range', List.range_eq_range']
    have := List.range'_append_1 0 size.toNat (max_size.toNat - size.toNat)
    rw [Nat.zero_add] at this
    rw [this]
    congr 1
    omega
  have hlenp : (s1.pool.length : Int) = max_size := by
    rw [hs1, d3, hall, List.length_range]; omega
  have hready : s1.ready_pool = [] := by rw [hs1]; exact d4
  have hfull : (s1.pool.length : Int) = toSizeT s1.max_size := by
    rw [hmx, toSizeT_of_range _ (by omega) hint]; exact hlenp
  refine ⟨hp, by rw [hp]; exact List.nodup_range _, ?_, d1, by rw [hs1]; exact d3,
    by rw [hall]; exact List.nodup_range _, hready, hlenp, ?_, ?_, ?_⟩
  · rw [hrs, d2, hr, ← hp, List.map_append]
  · simp [ConnectionPool.waitCondition, hready, hfull]
  · intro d; exact getConnection_wait s1 d hready hfull
  · intro c
    have hrp : (s1.pushConnection c).ready_pool = c :: [] := by
      simp [ConnectionPool.pushConnection, hready]
    refine ⟨by simp [ConnectionPool.waitCondition, hrp], fun d => ?_⟩
    rw [getConnection_cons _ d c [] hrp]

theorem exhausted_after_max_acquires_witness :
    (0 : Int) < 2 ∧ (2 : Int) ≤ 3 ∧
    (acquireAll ((ConnectionPool.new 2 3).init (fun _ => DialOutcome.connected)).pool
        [DialOutcome.connected, DialOutcome.connected, DialOutcome.connected]).2
      = [GetResult.conn 0, GetResult.conn 1, GetResult.conn 2] ∧
    (acquireAll ((ConnectionPool.new 2 3).init (fun _ => DialOutcome.connected)).pool
        [DialOutcome.connected, DialOutcome.connected, DialOutcome.connected]).1.waitCondition
      = true := by
  have hrs : (acquireAll ((ConnectionPool.new 2 3).init (fun _ => DialOutcome.connected)).pool
      [DialOutcome.connected, DialOutcome.connected, DialOutcome.connected]).2
      = [GetResult.conn 0, GetResult.conn 1, GetResult.conn 2] := by decide
  have h := exhausted_after_max_acquires 2 3 (fun _ => DialOutcome.connected) (by decide)
    (by decide) (by decide) (by decide)
    [DialOutcome.connected, DialOutcome.connected, DialOutcome.connected] (by decide)
    ((ConnectionPool.new 2 3).init (fun _ => DialOutcome.connected)).pool
    (acquireAll ((ConnectionPool.new 2 3).init (fun _ => DialOutcome.connected)).pool
      [DialOutcome.connected, DialOutcome.connected, DialOutcome.connected]).1
    (acquireAll ((ConnectionPool.new 2 3).init (fun _ => DialOutcome.connected)).pool
      [DialOutcome.connected, DialOutcome.connected, DialOutcome.connected]).2
    rfl rfl
    (by
      intro r hr
      rw [hrs] at hr
      simp only [List.mem_cons, List.mem_singleton, List.not_mem_nil, or_false] at hr
      rcases hr with h | h | h <;> exact ⟨_, h⟩)
  exact ⟨by decide, by decide, hrs, h.2.2.2.2.2.2.2.2.1⟩

/-! ## The watcher and the reconnect task -/

theorem watchEvent_zero (s : ConnectionPool) (c : Conn)
    (hp : c ∈ s.pool) (hr : c ∈ s.ready_pool) :
    s.watchEvent { conn := c, epollin := true, length := 0 } =
      some { s with state := setState s.state c ConnState.INVALID,
                    pool := s.pool.erase c, ready_pool := s.ready_pool.erase c } := by
  simp [ConnectionPool.watchEvent, eraseFound, hp, hr]

theorem watchEvent_zero_some (s s1 : ConnectionPool) (c : Conn)
    (h : s.watchEvent { conn := c, epollin := true, length := 0 } = some s1) :
    s1.ready_pool = s.ready_pool.erase c ∧ s1.pool = s.pool.erase c ∧ s1.created = s.created ∧
      s1.max_size = s.max_size := by
  by_cases hp : c ∈ s.pool
  · by_cases hr : c ∈ s.ready_pool
    · rw [watchEvent_zero s c hp hr] at h
      cases h
      exact ⟨rfl, rfl, rfl, rfl⟩
    · simp [ConnectionPool.watchEvent, eraseFound, hp, hr] at h
  · simp [ConnectionPool.watchEvent, eraseFound, hp] at h

/-- A reconnect task whose remaining attempts all fail changes nothing and
sleeps once per attempt. -/
theorem reconnectLoop_fail (c : Conn) (connectOk : Nat → Bool) :
    ∀ (n i : Nat) (s : ConnectionPool) (sl : List Nat),
      (∀ j, j < n → connectOk (i + j) = false) →
      reconnectLoop c connectOk n i s sl =
        { pool := s, attempts := i + n,
          sleeps := sl ++ List.replicate n (RECONNECT_INTERVAL * 1000) } := by
  intro n
  induction n with
  | zero => intro i s sl _; simp [reconnectLoop]
  | succ n ih =>
      intro i s sl h
      have h0 : connectOk i = false := by simpa using h 0 (by omega)
      simp only [reconnectLoop, h0]
      rw [ih (i + 1) s _ (fun j hj => by
        have := h (j + 1) (by omega)
        rwa [show i + (j + 1) = i + 1 + j by omega] at this)]
      simp [List.replicate_succ]
      omega

/-- Whatever the attempts give, a reconnect task for `c` changes the ready
list at most by appending `c`, and allocates nothing. -/
theorem reconnectLoop_ready (c : Conn) (connectOk : Nat → Bool) :
    ∀ (n i : Nat) (s : ConnectionPool) (sl : List Nat),
      ((reconnectLoop c connectOk n i s sl).pool.ready_pool = s.ready_pool ∨
        (reconnectLoop c connectOk n i s sl).pool.ready_pool = s.ready_pool ++ [c]) ∧
      (reconnectLoop c connectOk n i s sl).pool.created = s.created := by
  intro n
  induction n with
  | zero => intro i s sl; simp [reconnectLoop]
  | succ n ih =>
      intro i s sl
      by_cases h0 : connectOk i = true
      · simp [reconnectLoop, h0]
      · simp only [reconnectLoop, h0]
        exact ih (i + 1) s _

/-- A connection that is allocated and not in the ready list is not what
`getConnection` returns, and is not in the ready list afterwards. -/
theorem getConnection_avoid (s : ConnectionPool) (d : DialOutcome) (c : Conn)
    (hr : c ∉ s.ready_pool) (hlt : c < s.created) :
    (s.getConnection d).2 ≠ GetResult.conn c ∧ c ∉ (s.getConnection d).1.ready_pool ∧
      c < (s.getConnection d).1.created := by
  rcases hrp : s.ready_pool with _ | ⟨c0, rest⟩
  · by_cases hfull : (s.pool.length : Int) = toSizeT s.max_size
    · rw [getConnection_wait s d hrp hfull]
      exact ⟨by simp, hr, hlt⟩
    · by_cases hd : d = DialOutcome.connected
      · subst hd
        rw [getConnection_dial s hrp hfull]
        refine ⟨?_, hr, Nat.lt_succ_of_lt hlt⟩
        intro h
        have : s.created = c := by simpa using h
        exact absurd this (Nat.ne_of_gt hlt)
      · rw [getConnection_null s d hrp hfull hd]
        exact ⟨by simp, hr, hlt⟩
  · rw [getConnection_cons s d c0 rest hrp]
    rw [hrp] at hr
    have hne : c ≠ c0 := fun h => hr (by rw [h]; simp)
    have hrest : c ∉ rest := fun h => hr (List.mem_cons_of_mem _ h)
    refine ⟨?_, hrest, hlt⟩
    intro h
    have : c0 = c := by simpa using h
    exact hne this.symm

theorem opStep_avoid (s : ConnectionPool) (out : List Conn) (o : Op) (c : Conn)
    (hr : c ∉ s.ready_pool) (hlt : c < s.created) (hout : c ∉ out)
    (ho : o.touches c = false) (s1 : ConnectionPool) (out1 : List Conn)
    (hstep : opStep s out o = some (s1, out1)) :
    c ∉ s1.ready_pool ∧ c < s1.created ∧ c ∉ out1 := by
  cases o with
  | acquire d =>
      obtain ⟨a1, a2, a3⟩ := getConnection_avoid s d c hr hlt
      simp only [opStep] at hstep
      split at hstep
      · rename_i s2 c2 heq
        rw [heq] at a1 a2 a3
        simp only [Option.some.injEq, Prod.mk.injEq] at hstep
        obtain ⟨e1, e2⟩ := hstep
        subst e1; subst e2
        refine ⟨a2, a3, ?_⟩
        intro hmem
        rcases List.mem_append.mp hmem with h | h
        · exact hout h
        · have : c = c2 := by simpa using h
          exact a1 (by rw [this])
      · rename_i s2 r hne heq
        rw [heq] at a2 a3
        simp only [Option.some.injEq, Prod.mk.injEq] at hstep
        obtain ⟨e1, e2⟩ := hstep
        subst e1; subst e2
        exact ⟨a2, a3, hout⟩
  | release x =>
      have hx : x ≠ c := by simpa [Op.touches] using ho
      simp only [opStep, Option.some.injEq, Prod.mk.injEq] at hstep
      obtain ⟨e1, e2⟩ := hstep
      subst e1; subst e2
      refine ⟨?_, hlt, hout⟩
      intro hmem
      have hmem' : c ∈ s.ready_pool ++ [x] := hmem
      rcases List.mem_append.mp hmem' with h | h
      · exact hr h
      · have hcx : c = x := by simpa using h
        exact hx hcx.symm
  | peerClose x =>
      simp only [opStep, Option.map_eq_some'] at hstep
      obtain ⟨s2, h2, e⟩ := hstep
      simp only [Prod.mk.injEq] at e
      obtain ⟨e1, e2⟩ := e
      subst e1; subst e2
      obtain ⟨w1, _, w3, _⟩ := watchEvent_zero_some s s2 x h2
      refine ⟨?_, by rw [w3]; exact hlt, hout⟩
      rw [w1]
      exact fun h => hr (List.mem_of_mem_erase h)
  | reconnect x ok =>
      have hx : x ≠ c := by simpa [Op.touches] using ho
      simp only [opStep, Option.some.injEq, Prod.mk.injEq] at hstep
      obtain ⟨e1, e2⟩ := hstep
      subst e1; subst e2
      obtain ⟨r1, r2⟩ := reconnectLoop_ready x ok RECONNECT_COUNT 0 s []
      refine ⟨?_, by show c < (reconnectLoop x ok RECONNECT_COUNT 0 s []).pool.created; rw [r2]; exact hlt, hout⟩
      show c ∉ (reconnectLoop x ok RECONNECT_COUNT 0 s []).pool.ready_pool
      rcases r1 with h | h
      · rw [h]; exact hr
      · rw [h]
        intro hmem
        rcases List.mem_append.mp hmem with h' | h'
        · exact hr h'
        · have hcx : c = x := by simpa using h'
          exact hx hcx.symm

theorem runOps_avoid (ops : List Op) (c : Conn) :
    ∀ (s : ConnectionPool) (out : List Conn), c ∉ s.ready_pool → c < s.created → c ∉ out →
      (∀ o, o ∈ ops → o.touches c = false) →
      ∀ (s1 : ConnectionPool) (out1 : List Conn), runOps s out ops = some (s1, out1) →
        c ∉ out1 := by
  induction ops with
  | nil =>
      intro s out _ _ hout _ s1 out1 h
      simp only [runOps, Option.some.injEq, Prod.mk.injEq] at h
      rw [← h.2]; exact hout
  | cons o rest ih =>
      intro s out hr hlt hout hops s1 out1 h
      simp only [runOps, Option.bind_eq_some] at h
      obtain ⟨p, hp, hrest⟩ := h
      obtain ⟨a1, a2, a3⟩ := opStep_avoid s out o c hr hlt hout (hops o (by simp)) p.1 p.2 hp
      exact ih p.1 p.2 a1 a2 a3 (fun o' ho' => hops o' (List.mem_cons_of_mem _ ho')) s1 out1 hrest

/-- C5: let `c` be an allocated connection that `pool` and `ready_pool` each
hold once.  When the watcher handles a readable event with zero bytes on `c`,
`c` is afterwards in neither container and `pool` is shorter by exactly one.
A reconnect task for `c` whose `RECONNECT_COUNT` attempts all fail makes that
many attempts and leaves the pool as it was; and in every later run of steps
(acquires with any dial outcome, releases, evictions and reconnects of other
connections) no `getConnection` returns `c`. -/
theorem evicted_connection_stays_out (s : ConnectionPool) (c : Conn)
    (halloc : c < s.created) (hpool : s.pool.count c = 1) (hready : s.ready_pool.count c = 1) :
    ∃ s1, s.watchEvent { conn := c, epollin := true, length := 0 } = some s1 ∧
      c ∉ s1.pool ∧ c ∉ s1.ready_pool ∧ s1.pool.length + 1 = s.pool.length ∧
      ∀ connectOk : Nat → Bool, (∀ i, i < RECONNECT_COUNT → connectOk i = false) →
        (s1.reconnect c connectOk).attempts = RECONNECT_COUNT ∧
        (s1.reconnect c connectOk).pool = s1 ∧
        ∀ (ops : List Op) (s2 : ConnectionPool) (out : List Conn),
          (∀ o, o ∈ ops → o.touches c = false) →
          runOps (s1.reconnect c connectOk).pool [] ops = some (s2, out) → c ∉ out := by
  have hp : c ∈ s.pool := List.count_pos_iff.mp (by omega)
  have hr : c ∈ s.ready_pool := List.count_pos_iff.mp (by omega)
  have hp0 : c ∉ s.pool.erase c := by
    apply List.count_eq_zero.mp
    rw [List.count_erase_self]; omega
  have hr0 : c ∉ s.ready_pool.erase c := by
    apply List.count_eq_zero.mp
    rw [List.count_erase_self]; omega
  obtain ⟨s1, hs1⟩ : ∃ s1 : ConnectionPool,
      s1 = { s with state := setState s.state c ConnState.INVALID,
                    pool := s.pool.erase c, ready_pool := s.ready_pool.erase c } := ⟨_, rfl⟩
  have e1 : s1.pool = s.pool.erase c := by rw [hs1]
  have e2 : s1.ready_pool = s.ready_pool.erase c := by rw [hs1]
  have e3 : s1.created = s.created := by rw [hs1]
  refine ⟨s1, by rw [hs1]; exact watchEvent_zero s c hp hr, by rw [e1]; exact hp0,
    by rw [e2]; exact hr0, ?_, ?_⟩
  · rw [e1, List.length_erase_of_mem hp]
    have : 0 < s.pool.length := List.length_pos_of_mem hp
    omega
  · intro connectOk hfail
    have hrun := reconnectLoop_fail c connectOk RECONNECT_COUNT 0 s1 []
      (fun j hj => by simpa using hfail j hj)
    simp only [ConnectionPool.reconnect]
    rw [hrun]
    refine ⟨by simp, rfl, ?_⟩
    intro ops s2 out hops h
    exact runOps_avoid ops c s1 [] (by rw [e2]; exact hr0) (by rw [e3]; exact halloc)
      (by simp) hops s2 out h

theorem evicted_connection_stays_out_witness :
    ∃ s1, ((ConnectionPool.new 2 3).init (fun _ => DialOutcome.connected)).pool.watchEvent
        { conn := 0, epollin := true, length := 0 } = some s1 ∧
      0 ∉ s1.pool ∧ 0 ∉ s1.ready_pool ∧
      s1.pool.length + 1
        = ((ConnectionPool.new 2 3).init (fun _ => DialOutcome.connected)).pool.pool.length ∧
      ∀ connectOk : Nat → Bool, (∀ i, i < RECONNECT_COUNT → connectOk i = false) →
        (s1.reconnect 0 connectOk).attempts = RECONNECT_COUNT ∧
        (s1.reconnect 0 connectOk).pool = s1 ∧
        ∀ (ops : List Op) (s2 : ConnectionPool) (out : List Conn),
          (∀ o, o ∈ ops → o.touches 0 = false) →
          runOps (s1.reconnect 0 connectOk).pool [] ops = some (s2, out) → 0 ∉ out :=
  evicted_connection_stays_out
    ((ConnectionPool.new 2 3).init (fun _ => DialOutcome.connected)).pool 0
    (by decide) (by decide) (by decide)

/-- C6, as the code has it: `pushConnection` (and so `Connection::close`) never
reports an error.  For every pool and every connection `c`, whether or not `c`
is in `pool` or already in `ready_pool`, the call returns, `c` is appended at
the back of `ready_pool`, and `pool` is unchanged. -/
theorem release_never_rejected (s : ConnectionPool) (c : Conn) :
    (s.pushConnectionCall c).2 = Completion.returned ∧
    (s.pushConnectionCall c).1.ready_pool = s.ready_pool ++ [c] ∧
    (s.pushConnectionCall c).1.pool = s.pool ∧
    Connection.close s c = (s.pushConnectionCall c).1 :=
  ⟨rfl, rfl, rfl, rfl⟩

/-- C6 fails as stated: on the pool initialised with `size = 2`, connection `0`
is already in the ready list and connection `5` is not in `pool`, yet releasing
either returns normally and puts it in the ready list (`0` now twice). -/
theorem release_of_ready_or_foreign_accepted :
    0 ∈ ((ConnectionPool.new 2 3).init (fun _ => DialOutcome.connected)).pool.ready_pool ∧
    (((ConnectionPool.new 2 3).init (fun _ => DialOutcome.connected)).pool.pushConnectionCall 0).2
      ≠ Completion.threw ∧
    (((ConnectionPool.new 2 3).init (fun _ => DialOutcome.connected)).pool.pushConnectionCall 0).1.ready_pool
      = [0, 1, 0] ∧
    5 ∉ ((ConnectionPool.new 2 3).init (fun _ => DialOutcome.connected)).pool.pool ∧
    (((ConnectionPool.new 2 3).init (fun _ => DialOutcome.connected)).pool.pushConnectionCall 5).2
      ≠ Completion.threw ∧
    (((ConnectionPool.new 2 3).init (fun _ => DialOutcome.connected)).pool.pushConnectionCall 5).1.ready_pool
      = [0, 1, 5] := by
  decide

/-- C7, as the code has it: `init` returns normally if and only if every one
of its `size` dials succeeds, and then `pool` and `ready_pool` both hold
exactly the `size` connections dialled, in dial order.  When dial `k` is the
first to fail, `init` throws there, and the `k` connections dialled before it
remain in both `pool` and `ready_pool`. -/
theorem init_stops_at_first_failed_dial (size max_size : Int) (dial : Nat → DialOutcome) :
    (((ConnectionPool.new size max_size).init dial).threw = false ↔
      ∀ j, j < size.toNat → dial j = DialOutcome.connected) ∧
    (((ConnectionPool.new size max_size).init dial).threw = false →
      ((ConnectionPool.new size max_size).init dial).pool.pool = List.range size.toNat ∧
      ((ConnectionPool.new size max_size).init dial).pool.ready_pool = List.range size.toNat) ∧
    (∀ k, k < size.toNat → (∀ j, j < k → dial j = DialOutcome.connected) →
      dial k ≠ DialOutcome.connected →
      ((ConnectionPool.new size max_size).init dial).threw = true ∧
      ((ConnectionPool.new size max_size).init dial).pool.pool = List.range k ∧
      ((ConnectionPool.new size max_size).init dial).pool.ready_pool = List.range k) := by
  refine ⟨?_, ?_, ?_⟩
  · have := initLoop_threw_iff dial size.toNat 0 (ConnectionPool.new size max_size)
    simpa [ConnectionPool.init] using this
  · intro h
    obtain ⟨h1, h2, _, _⟩ := init_ok_fields size max_size dial h
    exact ⟨h1, h2⟩
  · intro k hk hok hfail
    have hp := initLoop_upto dial size.toNat 0 (ConnectionPool.new size max_size) k
      (Nat.le_of_lt hk) (fun j hj => by simpa using hok j hj) (fun _ => by simpa using hfail)
    obtain ⟨h1, h2, h3, _, _, _⟩ := hp
    have e : (ConnectionPool.new size max_size).init dial
        = initLoop dial size.toNat 0 (ConnectionPool.new size max_size) := rfl
    rw [e]
    refine ⟨by rw [h1]; simp [hk], ?_, ?_⟩
    · rw [h2]; simp [ConnectionPool.new, List.range_eq_range']
    · rw [h3]; simp [ConnectionPool.new, List.range_eq_range']

theorem init_stops_at_first_failed_dial_witness :
    ((ConnectionPool.new 3 3).init
        (fun i => if i = 2 then DialOutcome.connectFailed else DialOutcome.connected)).threw = true ∧
    ((ConnectionPool.new 3 3).init
        (fun i => if i = 2 then DialOutcome.connectFailed else DialOutcome.connected)).pool.pool
      = List.range 2 ∧
    ((ConnectionPool.new 3 3).init
        (fun i => if i = 2 then DialOutcome.connectFailed else DialOutcome.connected)).pool.ready_pool
      = List.range 2 :=
  (init_stops_at_first_failed_dial 3 3
    (fun i => if i = 2 then DialOutcome.connectFailed else DialOutcome.connected)).2.2 2
    (by decide) (by intro j hj; have : j ≠ 2 := by omega
                    simp [this]) (by decide)

/-- C7 fails as stated: with `size = 2`, a first dial that succeeds and a
second that fails, `init` throws and the connection of the first dial is still
in `pool` and in `ready_pool`. -/
theorem init_keeps_earlier_connections :
    ((ConnectionPool.new 2 3).init
        (fun i => if i = 0 then DialOutcome.connected else DialOutcome.connectFailed)).threw = true ∧
    ((ConnectionPool.new 2 3).init
        (fun i => if i = 0 then DialOutcome.connected else DialOutcome.connectFailed)).pool.pool = [0] ∧
    ((ConnectionPool.new 2 3).init
        (fun i => if i = 0 then DialOutcome.connected else DialOutcome.connectFailed)).pool.ready_pool
      = [0] := by
  decide

/-- C9 at its failing input: pool with `size = 1`, `max_size = 2`.  Two
acquires hand out connection `0` and dial connection `1`; `1` is released; the
watcher evicts it on a zero-byte event; the next acquire dials connection `2`,
which fills `pool`; the reconnect task of `1` then succeeds at its first
attempt and appends `1` without looking at `max_size`: `pool` holds three
connections. -/
theorem reconnect_overfills_pool :
    (runOps ((ConnectionPool.new 1 2).init (fun _ => DialOutcome.connected)).pool []
        [Op.acquire DialOutcome.connected, Op.acquire DialOutcome.connected, Op.release 1,
          Op.peerClose 1, Op.acquire DialOutcome.connected, Op.reconnect 1 (fun _ => true)]).map
      (fun p => (p.1.pool, p.1.max_size, decide ((p.1.pool.length : Int) ≤ p.1.max_size)))
      = some ([0, 2, 1], 2, false) := by
  decide

/-- C10 at its failing input: a reconnect task whose attempts all fail makes
`RECONNECT_COUNT = 3` attempts and each time hands `RECONNECT_INTERVAL * 1000
= 3000` to `usleep`, which is 3 milliseconds, not the 3 000 000 microseconds
of a pause of `RECONNECT_INTERVAL` seconds. -/
theorem reconnect_sleeps_three_milliseconds (s : ConnectionPool) (c : Conn) :
    (s.reconnect c (fun _ => false)).attempts = 3 ∧
    (s.reconnect c (fun _ => false)).sleeps = [3000, 3000, 3000] ∧
    RECONNECT_INTERVAL * 1000 ≠ RECONNECT_INTERVAL * 1000000 := by
  refine ⟨rfl, rfl, by decide⟩

end ConnPool
